import Mathlib

/-!
Verification development for the pose-dataset generation pipeline of
`generate_dataset.py` (2d_to_3d_human_pose_converter).

A 3D skeleton is a 3×19 real matrix (rows = x, y, z; columns = joints);
raw bodies are 4×19 (an extra confidence row).  The embedding below
translates, line by line:

  * `normalize_skeleton` (lines 16–39): drop the confidence row, recentre
    on the shoulder midpoint (columns 3 and 9), overwrite the neck column
    (0) with that midpoint, rescale by the shoulder distance, and rotate
    every column about the vertical (y) axis by the unsigned angle between
    the shoulder line's (x, z) projection and the reference direction
    (-1, 0).
  * `project_skel` (lines 42–50): keep the first two rows.
  * `rotate_skel` (lines 53–66): copy the array, then rotate every column
    about the y axis by `math.radians(degree)`.  Because the claims about
    this function and about `augmented_data` are frame conditions (the
    input array is not mutated), arrays are modelled as references into an
    explicit store, numpy array creation as allocation, and in-place
    column assignment as a store write.
  * `augmented_data` (lines 68–81) and the dataset assembly part of
    `generate_dataset` (lines 95–111).

Python floats are modelled as real numbers.  Randomness (`uniform(-20,20)`
and `np.random.uniform`) is modelled by explicit parameter streams: `a k`
is the rotation angle drawn in iteration `k`, and `u k` the matrix of
unit-interval draws scaled by the dataset-wide `noise_amount`.
-/

noncomputable section

namespace GenDataset

/-- 3×19 skeleton matrix: rows x, y, z; 19 joint columns. -/
abbrev Mat3 := Fin 3 → Fin 19 → ℝ

/-- Raw 4×19 body matrix: rows x, y, z, confidence. -/
abbrev Mat4 := Fin 4 → Fin 19 → ℝ

/-- 2×19 projected skeleton matrix. -/
abbrev Mat2 := Fin 2 → Fin 19 → ℝ

/-- Column `c` of a skeleton, as a 3-vector (`skel[:, c]`). -/
def col (s : Mat3) (c : Fin 19) : Fin 3 → ℝ := fun r => s r c

/-- `scipy.spatial.distance.euclidean`: the Euclidean distance of two
3-vectors. -/
def euclid (a b : Fin 3 → ℝ) : ℝ := Real.sqrt (∑ r : Fin 3, (a r - b r) ^ 2)

/-- `skel = _skel[:3, :]` (line 23): drop the confidence row. -/
def dropConf (m : Mat4) : Mat3 := fun r c => m r.castSucc c

/-- `anchor_pt = (skel[:, 3] + skel[:, 9]) / 2.0` (line 27). -/
def anchor_pt (s : Mat3) : Fin 3 → ℝ := fun r => (s r 3 + s r 9) / 2

/-- `skel[:, 0] = anchor_pt` (line 28): overwrite the neck column. -/
def setNeck (s : Mat3) : Mat3 := fun r c => if c = 0 then anchor_pt s r else s r c

/-- `resize_factor = distance.euclidean(skel[:, 3], skel[:, 9])` (line 29). -/
def resize_factor (s : Mat3) : ℝ := euclid (col s 3) (col s 9)

/-- The loop of lines 30–31: `skel[:, i] = (skel[:, i] - anchor_pt) /
resize_factor`.  `anchor_pt` and `resize_factor` are computed before the
loop and each iteration touches only its own column, so the loop is the
pointwise map below (`resize_factor` is read from the neck-overwritten
array, as in the source). -/
def scaled (s : Mat3) : Mat3 :=
  fun r c => (setNeck s r c - anchor_pt s r) / resize_factor (setNeck s)

/-- `np.linalg.norm` of a 2-vector. -/
def norm2 (v : ℝ × ℝ) : ℝ := Real.sqrt (v.1 ^ 2 + v.2 ^ 2)

/-- Modelled from the spec: `angle_between` is imported from `utils.py`,
which is not in the sources; spec §4.1 describes it as the unsigned angle
in radians between two vectors, the arc-cosine of their normalized dot
product clamped to [-1, 1] (`np.clip`). -/
def angle_between (v w : ℝ × ℝ) : ℝ :=
  Real.arccos (max (-1) (min ((v.1 * w.1 + v.2 * w.2) / (norm2 v * norm2 w)) 1))

/-- `skel[0::2, 3] - skel[0::2, 9]` (line 34): the (x, z) projection of the
shoulder line, joint 3 minus joint 9. -/
def shoulderXZ (s : Mat3) : ℝ × ℝ := (s 0 3 - s 0 9, s 2 3 - s 2 9)

/-- `Quaternion(axis=[0, 1, 0], angle=θ).rotate(v)`: active rotation of a
3-vector about the y axis by θ (right-hand rule), i.e. the matrix
[[cos θ, 0, sin θ], [0, 1, 0], [-sin θ, 0, cos θ]]. -/
def rotY (θ : ℝ) (v : Fin 3 → ℝ) : Fin 3 → ℝ := fun r =>
  if r = 0 then Real.cos θ * v 0 + Real.sin θ * v 2
  else if r = 1 then v 1
  else -Real.sin θ * v 0 + Real.cos θ * v 2

/-- `normalize_skeleton` (lines 16–39): recentre/rescale, then the loop of
lines 36–37 rotates every column by the angle of line 34. -/
def normalize_skeleton (m : Mat4) : Mat3 := fun r c =>
  rotY (angle_between (shoulderXZ (scaled (dropConf m))) (-1, 0))
    (col (scaled (dropConf m)) c) r

/-- `project_skel` (lines 42–50): `skel_2d = skel_3d[:2, :]`. -/
def project_skel (s : Mat3) : Mat2 := fun r c => s r.castSucc c

/-- `math.radians(degree)`. -/
def radians (d : ℝ) : ℝ := d * Real.pi / 180

/-! ## Store model

numpy arrays are mutable objects; the frame-effect claims ("the input is
untouched") are about which array objects get written.  A `Store` maps
references (allocation order numbers) to 3×19 matrices; `alloc` models
array creation (`np.copy`, `skel + noise`), `writeCol` models in-place
column assignment (`arr[:, i] = v`). -/

/-- A heap of allocated skeleton arrays: `mem` gives the contents at each
reference, `next` is the next fresh reference. -/
structure Store where
  mem : Nat → Mat3
  next : Nat

/-- Allocate a fresh array holding `m`; returns the new store and the new
reference. -/
def alloc (σ : Store) (m : Mat3) : Store × Nat :=
  (⟨Function.update σ.mem σ.next m, σ.next + 1⟩, σ.next)

/-- Overwrite column `i` of matrix `m` with the 3-vector `v`. -/
def updateCol (m : Mat3) (i : Fin 19) (v : Fin 3 → ℝ) : Mat3 :=
  fun r c => if c = i then v r else m r c

/-- In-place column write `σ.mem p [:, i] = v`. -/
def writeCol (σ : Store) (p : Nat) (i : Fin 19) (v : Fin 3 → ℝ) : Store :=
  ⟨Function.update σ.mem p (updateCol (σ.mem p) i v), σ.next⟩

/-- The loop body of lines 63–64: `rotated_skel[:, i] =
quaternion.rotate(skel_3d[:, i])`, reading column `i` of the array at
`ref` and writing it, rotated, into the array at `out`. -/
def rotWrite (ref out : Nat) (θ : ℝ) (τ : Store) (i : Fin 19) : Store :=
  writeCol τ out i (fun r => rotY θ (col (τ.mem ref) i) r)

/-- `rotate_skel` (lines 53–66): `rotated_skel = np.copy(skel_3d)` is an
allocation, then the loop writes the rotated columns into the copy, column
by column, reading from the original array `ref` each iteration.  Returns
the store after the call and the reference of the new array. -/
def rotate_skel (σ : Store) (ref : Nat) (degree : ℝ) : Store × Nat :=
  let p := alloc σ (σ.mem ref)
  ((List.finRange 19).foldl (rotWrite ref p.2 (radians degree)) p.1, p.2)

/-- `np.mean` over all 57 entries of a 3×19 array. -/
def matMean (m : Mat3) : ℝ := (∑ r : Fin 3, ∑ c : Fin 19, m r c) / 57

/-- `np.std` over all 57 entries of a 3×19 array (population standard
deviation of the flattened array). -/
def matStd (m : Mat3) : ℝ :=
  Real.sqrt ((∑ r : Fin 3, ∑ c : Fin 19, (m r c - matMean m) ^ 2) / 57)

/-- `new_sample = skel_3d + noise` (line 78): `noise =
np.random.uniform(0, noise_amount, shape)` is a matrix of draws from
[0, noise_amount], modelled as `amt` times a matrix `nu` of unit-interval
draws. -/
def noised (σ : Store) (ref : Nat) (amt : ℝ) (nu : Mat3) : Mat3 :=
  fun r c => σ.mem ref r c + amt * nu r c

/-- One iteration of the `augmented_data` loop (lines 73–80): rotate
(allocating the rotated copy), allocate `new_sample = skel_3d + noise`,
then write `new_sample[:, 0] = 0` in place.  Returns the store after the
iteration and the references of the two appended variants. -/
def augStep (σ : Store) (ref : Nat) (ang : ℝ) (amt : ℝ) (nu : Mat3) : Store × Nat × Nat :=
  let p1 := rotate_skel σ ref ang
  let p2 := alloc p1.1 (noised p1.1 ref amt nu)
  (writeCol p2.1 p2.2 0 (fun _ => 0), p1.2, p2.2)

/-- The loop of `augmented_data` (lines 72–80), iterated over the input
references with `k` counting iterations to index the random streams: the
rotation angle of iteration `k` is `a k` (drawn by `uniform(-20, +20)`)
and its noise draws are `u k`. -/
def augLoop (σ : Store) (refs : List Nat) (k : Nat) (a : Nat → ℝ) (u : Nat → Mat3)
    (amt : ℝ) : Store × List Nat :=
  match refs with
  | [] => (σ, [])
  | ref :: rest =>
    let s := augStep σ ref (a k) amt (u k)
    let q := augLoop s.1 rest (k + 1) a u amt
    (q.1, s.2.1 :: s.2.2 :: q.2)

/-- `augmented_data` (lines 68–81).  Line 71 computes `noise_amount =
np.std(skeletons_3d[0][:]) / 10.0`, which indexes the first element: on an
empty collection this is an out-of-bounds access (IndexError), modelled by
`none`. -/
def augmented_data (σ : Store) (skeletons_3d : List Nat) (a : Nat → ℝ) (u : Nat → Mat3) :
    Option (Store × List Nat) :=
  match skeletons_3d with
  | [] => none
  | first :: _ => some (augLoop σ skeletons_3d 0 a u (matStd (σ.mem first) / 10))

/-- The references `augLoop` allocates when started at `next = n` for `N`
source skeletons: two per source, in order. -/
def buildRefs (n : Nat) : Nat → List Nat
  | 0 => []
  | N + 1 => n :: (n + 1) :: buildRefs (n + 2) N

/-- Allocate a list of matrices one after the other, returning their
references in order. -/
def allocList (σ : Store) : List Mat3 → Store × List Nat
  | [] => (σ, [])
  | m :: rest =>
    let p := alloc σ m
    let q := allocList p.1 rest
    (q.1, p.2 :: q.2)

/-- `frames[::2]` (line 95): every second element, starting with the
first. -/
def halve {α : Type} : List α → List α
  | [] => []
  | [x] => [x]
  | x :: _ :: rest => x :: halve rest

/-- The serialized structure: `dataset = {'3d': skeletons_3d, '2d':
skeletons_2d}` (line 111); `d3` is the `'3d'` entry, `d2` the `'2d'`
entry. -/
structure Dataset where
  d3 : List Mat3
  d2 : List Mat2

/-- An empty heap. -/
def emptyStore : Store := ⟨fun _ => fun _ _ => 0, 0⟩

/-- `generate_dataset` (lines 84–113) downstream of the JSON parsing: each
frame is its list of bodies (`frame['bodies']`, each already reshaped to
4×19).  After halving the frame rate, every body is normalized and
collected (lines 97–102, modelled as allocations), `skeletons_3d` is
extended with `augmented_data(skeletons_3d)` (line 103), every 3D skeleton
is projected to 2D (lines 106–109), and the two parallel lists are
assembled (line 111).  File traversal and pickling are outside the model;
`none` models the IndexError that `augmented_data` raises when no body was
found. -/
def generate_dataset (frames : List (List Mat4)) (a : Nat → ℝ) (u : Nat → Mat3) :
    Option Dataset :=
  let bodies := (halve frames).flatten
  let skels := bodies.map normalize_skeleton
  let p := allocList emptyStore skels
  (augmented_data p.1 p.2 a u).map (fun q =>
    let skeletons_3d := (p.2 ++ q.2).map q.1.mem
    ⟨skeletons_3d, skeletons_3d.map project_skel⟩)

/-! ## Facts about the normalizer -/

lemma setNeck_ne_zero (s : Mat3) (r : Fin 3) (c : Fin 19) (hc : c ≠ 0) :
    setNeck s r c = s r c := by
  simp [setNeck, hc]

lemma col_setNeck_three (s : Mat3) : col (setNeck s) 3 = col s 3 := by
  funext r
  exact setNeck_ne_zero s r 3 (by decide)

lemma col_setNeck_nine (s : Mat3) : col (setNeck s) 9 = col s 9 := by
  funext r
  exact setNeck_ne_zero s r 9 (by decide)

lemma resize_factor_setNeck (s : Mat3) : resize_factor (setNeck s) = resize_factor s := by
  unfold resize_factor
  rw [col_setNeck_three, col_setNeck_nine]

lemma scaled_apply_zero (s : Mat3) (r : Fin 3) : scaled s r 0 = 0 := by
  simp [scaled, setNeck]

lemma rotY_apply_zero (θ : ℝ) (v : Fin 3 → ℝ) :
    rotY θ v 0 = Real.cos θ * v 0 + Real.sin θ * v 2 := by
  simp [rotY]

lemma rotY_apply_one (θ : ℝ) (v : Fin 3 → ℝ) : rotY θ v 1 = v 1 := by
  simp [rotY]

lemma rotY_apply_two (θ : ℝ) (v : Fin 3 → ℝ) :
    rotY θ v 2 = -Real.sin θ * v 0 + Real.cos θ * v 2 := by
  simp [rotY]

lemma rotY_zero_of_zero (θ : ℝ) (v : Fin 3 → ℝ) (hv : ∀ r, v r = 0) (r : Fin 3) :
    rotY θ v r = 0 := by
  fin_cases r <;> simp [rotY, hv]

/-- A rotation about the y axis preserves sums of squared coordinate
differences (orthogonality, from sin² + cos² = 1). -/
lemma sum_sq_rotY (θ : ℝ) (v w : Fin 3 → ℝ) :
    ∑ r : Fin 3, (rotY θ v r - rotY θ w r) ^ 2 = ∑ r : Fin 3, (v r - w r) ^ 2 := by
  simp only [Fin.sum_univ_three, rotY_apply_zero, rotY_apply_one, rotY_apply_two]
  linear_combination ((v 0 - w 0) ^ 2 + (v 2 - w 2) ^ 2) * Real.sin_sq_add_cos_sq θ

lemma euclid_rotY (θ : ℝ) (v w : Fin 3 → ℝ) : euclid (rotY θ v) (rotY θ w) = euclid v w := by
  unfold euclid
  rw [sum_sq_rotY]

lemma euclid_pos (a b : Fin 3 → ℝ) (h : a ≠ b) : 0 < euclid a b := by
  rw [euclid, Real.sqrt_pos]
  obtain ⟨r, hr⟩ := Function.ne_iff.mp h
  refine Finset.sum_pos' (fun i _ => sq_nonneg _) ⟨r, Finset.mem_univ r, ?_⟩
  have h2 : a r - b r ≠ 0 := sub_ne_zero_of_ne hr
  exact lt_of_le_of_ne (sq_nonneg _) (Ne.symm (pow_ne_zero 2 h2))

lemma scaled_sub (s : Mat3) (r : Fin 3) :
    scaled s r 3 - scaled s r 9 = (s r 3 - s r 9) / resize_factor s := by
  unfold scaled
  rw [resize_factor_setNeck, div_sub_div_same,
    setNeck_ne_zero s r 3 (by decide), setNeck_ne_zero s r 9 (by decide)]
  congr 1
  ring

/-- After recentre/rescale the shoulder distance is 1 (shoulders distinct). -/
lemma euclid_scaled (s : Mat3) (h : col s 3 ≠ col s 9) :
    euclid (col (scaled s) 3) (col (scaled s) 9) = 1 := by
  have hR : 0 < resize_factor s := euclid_pos _ _ h
  have hS : 0 < ∑ r : Fin 3, (col s 3 r - col s 9 r) ^ 2 := by
    have := hR
    rw [resize_factor, euclid, Real.sqrt_pos] at this
    exact this
  unfold euclid
  have hrw : ∀ r : Fin 3, col (scaled s) 3 r - col (scaled s) 9 r
      = (col s 3 r - col s 9 r) / resize_factor s := fun r => scaled_sub s r
  simp only [hrw, div_pow, ← Finset.sum_div]
  rw [show (resize_factor s) ^ 2 = ∑ r : Fin 3, (col s 3 r - col s 9 r) ^ 2 by
    rw [resize_factor, euclid]; exact Real.sq_sqrt hS.le]
  rw [div_self hS.ne', Real.sqrt_one]

/-- C1: for every input whose two shoulder joints (columns 3 and 9 of the
x,y,z part) are distinct, `normalize_skeleton` returns a skeleton whose
joint 0 is (0,0,0) and whose joints 3 and 9 are at Euclidean distance
exactly 1. -/
theorem c1_normalize_root_and_unit_shoulders (m : Mat4)
    (h : col (dropConf m) 3 ≠ col (dropConf m) 9) :
    (∀ r : Fin 3, normalize_skeleton m r 0 = 0) ∧
      euclid (col (normalize_skeleton m) 3) (col (normalize_skeleton m) 9) = 1 := by
  constructor
  · intro r
    exact rotY_zero_of_zero _ _ (fun r' => scaled_apply_zero (dropConf m) r') r
  · have h3 : col (normalize_skeleton m) 3
        = rotY (angle_between (shoulderXZ (scaled (dropConf m))) (-1, 0))
            (col (scaled (dropConf m)) 3) := rfl
    have h9 : col (normalize_skeleton m) 9
        = rotY (angle_between (shoulderXZ (scaled (dropConf m))) (-1, 0))
            (col (scaled (dropConf m)) 9) := rfl
    rw [h3, h9, euclid_rotY]
    exact euclid_scaled (dropConf m) h

/-- Values of the small `Fin` literals appearing in joint indices. -/
lemma finv0 : ((0 : Fin 19)).val = 0 := by decide

lemma finv3 : ((3 : Fin 19)).val = 3 := by decide

lemma finv9 : ((9 : Fin 19)).val = 9 := by decide

lemma fincs0 : (((0 : Fin 3)).castSucc).val = 0 := by decide

lemma fincs1 : (((1 : Fin 3)).castSucc).val = 1 := by decide

lemma fincs2 : (((2 : Fin 3)).castSucc).val = 2 := by decide

/-- Concrete input for the C1 witness: shoulders at (∓1/2, 0, 0), all other
joints at the origin, zero confidence row. -/
def wSkel : Mat4 := fun r c =>
  if c.1 = 3 then (if r.1 = 0 then -(1 / 2) else 0)
  else if c.1 = 9 then (if r.1 = 0 then 1 / 2 else 0)
  else 0

theorem c1_witness :
    (col (dropConf wSkel) 3 ≠ col (dropConf wSkel) 9) ∧
      ((∀ r : Fin 3, normalize_skeleton wSkel r 0 = 0) ∧
        euclid (col (normalize_skeleton wSkel) 3) (col (normalize_skeleton wSkel) 9) = 1) := by
  have h : col (dropConf wSkel) 3 ≠ col (dropConf wSkel) 9 := by
    intro heq
    have h0 := congrFun heq 0
    simp only [col, dropConf, wSkel] at h0
    norm_num [finv3, finv9, fincs0] at h0
  exact ⟨h, c1_normalize_root_and_unit_shoulders wSkel h⟩

/-! ## The frontalization step (C2) -/

lemma shoulderXZ_scaled (s : Mat3) :
    shoulderXZ (scaled s)
      = ((s 0 3 - s 0 9) / resize_factor s, (s 2 3 - s 2 9) / resize_factor s) := by
  unfold shoulderXZ
  rw [scaled_sub s 0, scaled_sub s 2]

lemma normalize_diff_x (m : Mat4) :
    normalize_skeleton m 0 3 - normalize_skeleton m 0 9
      = Real.cos (angle_between (shoulderXZ (scaled (dropConf m))) (-1, 0))
          * (scaled (dropConf m) 0 3 - scaled (dropConf m) 0 9)
        + Real.sin (angle_between (shoulderXZ (scaled (dropConf m))) (-1, 0))
          * (scaled (dropConf m) 2 3 - scaled (dropConf m) 2 9) := by
  unfold normalize_skeleton
  rw [rotY_apply_zero, rotY_apply_zero]
  unfold col
  ring

lemma normalize_diff_z (m : Mat4) :
    normalize_skeleton m 2 3 - normalize_skeleton m 2 9
      = -Real.sin (angle_between (shoulderXZ (scaled (dropConf m))) (-1, 0))
          * (scaled (dropConf m) 0 3 - scaled (dropConf m) 0 9)
        + Real.cos (angle_between (shoulderXZ (scaled (dropConf m))) (-1, 0))
          * (scaled (dropConf m) 2 3 - scaled (dropConf m) 2 9) := by
  unfold normalize_skeleton
  rw [rotY_apply_two, rotY_apply_two]
  unfold col
  ring

/-- Cosine and sine of the unsigned angle between (a, b) and the reference
direction (-1, 0): the clamp is the identity (Cauchy–Schwarz), the cosine
is the normalized dot product, and the sine — being the sine of an
arc-cosine — is nonnegative regardless of the sign of b. -/
lemma angle_between_neg_x (a b : ℝ) (hab : a ≠ 0 ∨ b ≠ 0) :
    Real.cos (angle_between (a, b) (-1, 0)) = -a / Real.sqrt (a ^ 2 + b ^ 2) ∧
      Real.sin (angle_between (a, b) (-1, 0)) = |b| / Real.sqrt (a ^ 2 + b ^ 2) := by
  have hq2 : 0 < a ^ 2 + b ^ 2 := by
    rcases hab with h | h
    · have := lt_of_le_of_ne (sq_nonneg a) (Ne.symm (pow_ne_zero 2 h))
      nlinarith [sq_nonneg b]
    · have := lt_of_le_of_ne (sq_nonneg b) (Ne.symm (pow_ne_zero 2 h))
      nlinarith [sq_nonneg a]
  have hq : 0 < Real.sqrt (a ^ 2 + b ^ 2) := Real.sqrt_pos.mpr hq2
  have hqq : Real.sqrt (a ^ 2 + b ^ 2) ^ 2 = a ^ 2 + b ^ 2 := Real.sq_sqrt hq2.le
  have habs : |a| ≤ Real.sqrt (a ^ 2 + b ^ 2) := by
    rw [← Real.sqrt_sq_eq_abs]
    exact Real.sqrt_le_sqrt (by nlinarith [sq_nonneg b])
  have hratio : |(-a) / Real.sqrt (a ^ 2 + b ^ 2)| ≤ 1 := by
    rw [abs_div, abs_neg, abs_of_pos hq]
    exact div_le_one_of_le₀ habs hq.le
  obtain ⟨hb1, hb2⟩ := abs_le.mp hratio
  have harg : ((a, b).1 * ((-1 : ℝ), (0 : ℝ)).1 + (a, b).2 * ((-1 : ℝ), (0 : ℝ)).2)
      / (norm2 (a, b) * norm2 (-1, 0)) = -a / Real.sqrt (a ^ 2 + b ^ 2) := by
    have hn1 : norm2 (a, b) = Real.sqrt (a ^ 2 + b ^ 2) := rfl
    have hn2 : norm2 (-1, 0) = 1 := by
      unfold norm2
      norm_num
    rw [hn1, hn2]
    ring_nf
  have hclamp : angle_between (a, b) (-1, 0)
      = Real.arccos (-a / Real.sqrt (a ^ 2 + b ^ 2)) := by
    unfold angle_between
    rw [harg, min_eq_left hb2, max_eq_right hb1]
  constructor
  · rw [hclamp, Real.cos_arccos hb1 hb2]
  · rw [hclamp, Real.sin_arccos]
    have h1 : 1 - (-a / Real.sqrt (a ^ 2 + b ^ 2)) ^ 2
        = b ^ 2 / Real.sqrt (a ^ 2 + b ^ 2) ^ 2 := by
      field_simp
    rw [h1, Real.sqrt_div (sq_nonneg b), Real.sqrt_sq_eq_abs, Real.sqrt_sq hq.le]

lemma frontal_x_arith (A B R q : ℝ) (hR : 0 < R) (hq : 0 < q)
    (hqq : q ^ 2 = A ^ 2 + B ^ 2) :
    -(A / R) / (q / R) * (A / R) + -(B / R) / (q / R) * (B / R) = q / R * (-1) := by
  field_simp
  linear_combination R ^ 4 * q * hqq

lemma frontal_z_arith (A B R q : ℝ) (hR : R ≠ 0) (hq : q ≠ 0) :
    -(-(B / R) / (q / R)) * (A / R) + -(A / R) / (q / R) * (B / R) = q / R * 0 := by
  field_simp
  ring

/-- C2 (amended): the frontalization is correct exactly when the rotation
direction matches the unsigned angle, i.e. when the z-offset of joint 3
minus joint 9 is nonpositive.  Under that hypothesis (plus a nonzero
shoulder (x, z) offset) the normalized shoulder line's (x, z) projection
is a positive multiple of the reference direction (-1, 0). -/
theorem c2_frontal_of_nonpos_z (m : Mat4)
    (hz : dropConf m 2 3 ≤ dropConf m 2 9)
    (hab : dropConf m 0 3 ≠ dropConf m 0 9 ∨ dropConf m 2 3 ≠ dropConf m 2 9) :
    ∃ c : ℝ, 0 < c ∧
      normalize_skeleton m 0 3 - normalize_skeleton m 0 9 = c * (-1) ∧
      normalize_skeleton m 2 3 - normalize_skeleton m 2 9 = c * 0 := by
  set s := dropConf m with hs
  set A := s 0 3 - s 0 9 with hA
  set B := s 2 3 - s 2 9 with hB
  set R := resize_factor s with hR0
  have hcol : col s 3 ≠ col s 9 := by
    intro heq
    rcases hab with h | h
    · exact h (congrFun heq 0)
    · exact h (congrFun heq 2)
  have hRpos : 0 < R := euclid_pos _ _ hcol
  have habAB : A ≠ 0 ∨ B ≠ 0 := by
    rcases hab with h | h
    · exact Or.inl (sub_ne_zero_of_ne h)
    · exact Or.inr (sub_ne_zero_of_ne h)
  have hab' : A / R ≠ 0 ∨ B / R ≠ 0 := by
    rcases habAB with h | h
    · exact Or.inl (div_ne_zero h hRpos.ne')
    · exact Or.inr (div_ne_zero h hRpos.ne')
  obtain ⟨hcos, hsin⟩ := angle_between_neg_x (A / R) (B / R) hab'
  have hq2 : 0 < A ^ 2 + B ^ 2 := by
    rcases habAB with h | h
    · nlinarith [lt_of_le_of_ne (sq_nonneg A) (Ne.symm (pow_ne_zero 2 h)), sq_nonneg B]
    · nlinarith [lt_of_le_of_ne (sq_nonneg B) (Ne.symm (pow_ne_zero 2 h)), sq_nonneg A]
  set q := Real.sqrt (A ^ 2 + B ^ 2) with hqdef
  have hqpos : 0 < q := Real.sqrt_pos.mpr hq2
  have hqq : q ^ 2 = A ^ 2 + B ^ 2 := Real.sq_sqrt hq2.le
  have hq' : Real.sqrt ((A / R) ^ 2 + (B / R) ^ 2) = q / R := by
    rw [show (A / R) ^ 2 + (B / R) ^ 2 = (A ^ 2 + B ^ 2) / R ^ 2 by field_simp,
      Real.sqrt_div hq2.le, Real.sqrt_sq hRpos.le]
  have hBn : B / R ≤ 0 := div_nonpos_of_nonpos_of_nonneg (sub_nonpos.mpr hz) hRpos.le
  rw [hq'] at hcos hsin
  rw [abs_of_nonpos hBn] at hsin
  have hang : angle_between (shoulderXZ (scaled s)) (-1, 0)
      = angle_between (A / R, B / R) (-1, 0) := by
    rw [shoulderXZ_scaled]
  have hX := normalize_diff_x m
  have hZ := normalize_diff_z m
  rw [← hs, hang, hcos, hsin, scaled_sub, scaled_sub, ← hA, ← hB, ← hR0] at hX hZ
  refine ⟨q / R, div_pos hqpos hRpos, ?_, ?_⟩
  · rw [hX]
    exact frontal_x_arith A B R q hRpos hqpos hqq
  · rw [hZ]
    exact frontal_z_arith A B R q hRpos.ne' hqpos.ne'

theorem c2_witness :
    (dropConf wSkel 2 3 ≤ dropConf wSkel 2 9 ∧
        (dropConf wSkel 0 3 ≠ dropConf wSkel 0 9 ∨ dropConf wSkel 2 3 ≠ dropConf wSkel 2 9)) ∧
      ∃ c : ℝ, 0 < c ∧
        normalize_skeleton wSkel 0 3 - normalize_skeleton wSkel 0 9 = c * (-1) ∧
        normalize_skeleton wSkel 2 3 - normalize_skeleton wSkel 2 9 = c * 0 := by
  have h1 : dropConf wSkel 2 3 ≤ dropConf wSkel 2 9 := by
    simp only [dropConf, wSkel]
    norm_num [finv3, finv9, fincs2]
  have h2 : dropConf wSkel 0 3 ≠ dropConf wSkel 0 9 := by
    simp only [dropConf, wSkel]
    norm_num [finv3, finv9, fincs0]
  exact ⟨⟨h1, Or.inl h2⟩, c2_frontal_of_nonpos_z wSkel h1 (Or.inl h2)⟩

/-- Counterexample input for C2 as stated: shoulders at (±1/2, 0, ±1/2),
i.e. the shoulder line's (x, z) offset is (1, 1), whose z-component is
positive. -/
def cexSkel : Mat4 := fun r c =>
  if c.1 = 3 then (if r.1 = 0 then 1 / 2 else if r.1 = 2 then 1 / 2 else 0)
  else if c.1 = 9 then (if r.1 = 0 then -(1 / 2) else if r.1 = 2 then -(1 / 2) else 0)
  else 0

/-- C2 (counterexample): on `cexSkel` the two shoulder joints are distinct,
but after `normalize_skeleton` the (x, z) projection of the shoulder line
is (0, -1) — perpendicular to the reference direction (-1, 0), not along
it: the unsigned angle is applied with a fixed rotation sign, which
misaligns inputs whose shoulder z-offset is positive. -/
theorem c2_counterexample :
    (dropConf cexSkel 0 3 ≠ dropConf cexSkel 0 9) ∧
      (normalize_skeleton cexSkel 0 3 - normalize_skeleton cexSkel 0 9 = 0 ∧
        normalize_skeleton cexSkel 2 3 - normalize_skeleton cexSkel 2 9 = -1) ∧
      ¬ ∃ c : ℝ, 0 < c ∧
          normalize_skeleton cexSkel 0 3 - normalize_skeleton cexSkel 0 9 = c * (-1) ∧
          normalize_skeleton cexSkel 2 3 - normalize_skeleton cexSkel 2 9 = c * 0 := by
  have hA : dropConf cexSkel 0 3 - dropConf cexSkel 0 9 = 1 := by
    simp only [dropConf, cexSkel]
    norm_num [finv3, finv9, fincs0]
  have hB : dropConf cexSkel 2 3 - dropConf cexSkel 2 9 = 1 := by
    simp only [dropConf, cexSkel]
    norm_num [finv3, finv9, fincs2]
  have hRv : resize_factor (dropConf cexSkel) = Real.sqrt 2 := by
    unfold resize_factor euclid col
    rw [Fin.sum_univ_three]
    simp only [dropConf, cexSkel]
    norm_num [finv3, finv9, fincs0, fincs1, fincs2]
  have hs2 : Real.sqrt 2 * Real.sqrt 2 = 2 := Real.mul_self_sqrt (by norm_num)
  have hs2ne : Real.sqrt 2 ≠ 0 := by positivity
  have hpair : shoulderXZ (scaled (dropConf cexSkel))
      = (1 / Real.sqrt 2, 1 / Real.sqrt 2) := by
    rw [shoulderXZ_scaled, hA, hB, hRv]
  obtain ⟨hcos, hsin⟩ := angle_between_neg_x (1 / Real.sqrt 2) (1 / Real.sqrt 2)
    (Or.inl (div_ne_zero one_ne_zero hs2ne))
  have hq1 : Real.sqrt ((1 / Real.sqrt 2) ^ 2 + (1 / Real.sqrt 2) ^ 2) = 1 := by
    rw [show (1 / Real.sqrt 2) ^ 2 + (1 / Real.sqrt 2) ^ 2 = (1 : ℝ) by field_simp]
    exact Real.sqrt_one
  rw [hq1, div_one] at hcos hsin
  rw [abs_of_pos (by positivity)] at hsin
  have hX := normalize_diff_x cexSkel
  have hZ := normalize_diff_z cexSkel
  rw [hpair, hcos, hsin, scaled_sub, scaled_sub, hA, hB, hRv] at hX hZ
  have hXv : normalize_skeleton cexSkel 0 3 - normalize_skeleton cexSkel 0 9 = 0 := by
    rw [hX]
    ring
  have hZv : normalize_skeleton cexSkel 2 3 - normalize_skeleton cexSkel 2 9 = -1 := by
    rw [hZ]
    field_simp
  refine ⟨?_, ⟨hXv, hZv⟩, ?_⟩
  · intro h
    rw [sub_eq_zero.mpr h] at hA
    norm_num at hA
  · rintro ⟨c, hc, hXc, _⟩
    rw [hXv] at hXc
    have : c = 0 := by linarith
    exact absurd this hc.ne'

/-! ## Degenerate geometry (C3) and projection (C4) -/

/-- Degenerate input for C3: every joint at the origin, so the two shoulder
joints (columns 3 and 9) coincide. -/
def degSkel : Mat4 := fun _ _ => 0

/-- C3: on a body whose shoulder joints coincide the divisor computed at
line 29 is exactly 0, and `normalize_skeleton` (lines 30–31) divides by it
with no guard and no error path — in numpy this fills the array with
NaN/Inf under a mere RuntimeWarning instead of raising the explicit
geometry error the spec requires. -/
theorem c3_degenerate_divisor_zero :
    resize_factor (setNeck (dropConf degSkel)) = 0 := by
  unfold resize_factor euclid col
  have hz : ∀ r : Fin 3, setNeck (dropConf degSkel) r 3 - setNeck (dropConf degSkel) r 9 = 0 := by
    intro r
    rw [setNeck_ne_zero _ _ _ (by decide), setNeck_ne_zero _ _ _ (by decide)]
    simp [dropConf, degSkel]
  simp only [hz]
  simp

/-- C4: `project_skel` is the function dropping the depth row: rows 0 and 1
of the output equal rows 0 and 1 of the input at every joint, and two
applications to the same input are identical (it is a pure function). -/
theorem c4_project_skel_drops_z (s : Mat3) (c : Fin 19) :
    project_skel s 0 c = s 0 c ∧ project_skel s 1 c = s 1 c ∧
      project_skel s = project_skel s :=
  ⟨rfl, rfl, rfl⟩

/-! ## Frame facts about the store model (C5) -/

lemma alloc_snd (σ : Store) (m : Mat3) : (alloc σ m).2 = σ.next := rfl

lemma alloc_fst_next (σ : Store) (m : Mat3) : (alloc σ m).1.next = σ.next + 1 := rfl

lemma alloc_fst_mem_ne (σ : Store) (m : Mat3) (q : Nat) (h : q ≠ σ.next) :
    (alloc σ m).1.mem q = σ.mem q := Function.update_noteq h _ _

lemma alloc_fst_mem_self (σ : Store) (m : Mat3) : (alloc σ m).1.mem σ.next = m :=
  Function.update_same _ _ _

lemma writeCol_next (σ : Store) (p : Nat) (i : Fin 19) (v : Fin 3 → ℝ) :
    (writeCol σ p i v).next = σ.next := rfl

lemma writeCol_mem_ne (σ : Store) (p q : Nat) (i : Fin 19) (v : Fin 3 → ℝ) (h : q ≠ p) :
    (writeCol σ p i v).mem q = σ.mem q := Function.update_noteq h _ _

lemma writeCol_mem_self (σ : Store) (p : Nat) (i : Fin 19) (v : Fin 3 → ℝ) :
    (writeCol σ p i v).mem p = updateCol (σ.mem p) i v := Function.update_same _ _ _

lemma rotWrite_fold_next (ref out : Nat) (θ : ℝ) (L : List (Fin 19)) (τ : Store) :
    (L.foldl (rotWrite ref out θ) τ).next = τ.next := by
  induction L generalizing τ with
  | nil => rfl
  | cons i L ih => rw [List.foldl_cons, ih, rotWrite, writeCol_next]

lemma rotWrite_fold_mem_ne (ref out : Nat) (θ : ℝ) (q : Nat) (hq : q ≠ out)
    (L : List (Fin 19)) (τ : Store) :
    (L.foldl (rotWrite ref out θ) τ).mem q = τ.mem q := by
  induction L generalizing τ with
  | nil => rfl
  | cons i L ih => rw [List.foldl_cons, ih, rotWrite, writeCol_mem_ne _ _ _ _ _ hq]

lemma rotWrite_fold_mem_out (ref out : Nat) (θ : ℝ) (href : ref ≠ out) (M : Mat3)
    (L : List (Fin 19)) (τ : Store) (hM : τ.mem ref = M) (r : Fin 3) (i : Fin 19) :
    (L.foldl (rotWrite ref out θ) τ).mem out r i
      = if i ∈ L then rotY θ (col M i) r else τ.mem out r i := by
  induction L generalizing τ with
  | nil => simp
  | cons i0 L ih =>
    rw [List.foldl_cons]
    have hM' : (rotWrite ref out θ τ i0).mem ref = M := by
      rw [rotWrite, writeCol_mem_ne _ _ _ _ _ href, hM]
    rw [ih _ hM']
    by_cases hiL : i ∈ L
    · simp [hiL]
    · by_cases hii : i = i0
      · subst hii
        simp [hiL, rotWrite, writeCol_mem_self, updateCol, hM]
      · simp [hiL, hii, rotWrite, writeCol_mem_self, updateCol]

lemma rotate_skel_ref (σ : Store) (ref : Nat) (d : ℝ) :
    (rotate_skel σ ref d).2 = σ.next := rfl

lemma rotate_skel_next (σ : Store) (ref : Nat) (d : ℝ) :
    (rotate_skel σ ref d).1.next = σ.next + 1 := by
  simp only [rotate_skel]
  rw [rotWrite_fold_next]
  rfl

lemma rotate_skel_mem_ne (σ : Store) (ref : Nat) (d : ℝ) (q : Nat) (hq : q ≠ σ.next) :
    (rotate_skel σ ref d).1.mem q = σ.mem q := by
  simp only [rotate_skel, alloc_snd]
  rw [rotWrite_fold_mem_ne _ _ _ _ hq]
  exact alloc_fst_mem_ne σ _ q hq

lemma rotate_skel_mem_out (σ : Store) (ref : Nat) (d : ℝ) (href : ref < σ.next)
    (r : Fin 3) (i : Fin 19) :
    (rotate_skel σ ref d).1.mem σ.next r i = rotY (radians d) (col (σ.mem ref) i) r := by
  simp only [rotate_skel, alloc_snd]
  rw [rotWrite_fold_mem_out _ _ _ href.ne (σ.mem ref) _ _
    (alloc_fst_mem_ne σ _ ref href.ne) r i]
  simp [List.mem_finRange]

/-- C5: `rotate_skel` leaves the input array untouched (its contents after
the call are its contents before), and the array it returns holds, at
every joint, the input joint rotated about the vertical axis by the degree
amount converted to radians. -/
theorem c5_rotate_skel_new_rotated (σ : Store) (ref : Nat) (d : ℝ) (h : ref < σ.next) :
    (rotate_skel σ ref d).1.mem ref = σ.mem ref ∧
      ∀ (r : Fin 3) (i : Fin 19),
        (rotate_skel σ ref d).1.mem (rotate_skel σ ref d).2 r i
          = rotY (radians d) (col (σ.mem ref) i) r := by
  refine ⟨rotate_skel_mem_ne σ ref d ref h.ne, ?_⟩
  intro r i
  rw [rotate_skel_ref]
  exact rotate_skel_mem_out σ ref d h r i

/-- A one-array store for the witnesses. -/
def storeW : Store := ⟨fun _ => fun _ _ => 0, 1⟩

theorem c5_witness :
    0 < storeW.next ∧
      ((rotate_skel storeW 0 0).1.mem 0 = storeW.mem 0 ∧
        ∀ (r : Fin 3) (i : Fin 19),
          (rotate_skel storeW 0 0).1.mem (rotate_skel storeW 0 0).2 r i
            = rotY (radians 0) (col (storeW.mem 0) i) r) :=
  ⟨Nat.zero_lt_one, c5_rotate_skel_new_rotated storeW 0 0 Nat.zero_lt_one⟩

/-! ## The augmentation loop (C6–C8, C10) -/

lemma augStep_next (σ : Store) (ref : Nat) (ang amt : ℝ) (nu : Mat3) :
    (augStep σ ref ang amt nu).1.next = σ.next + 2 := by
  simp only [augStep, writeCol_next, alloc_fst_next, rotate_skel_next]

lemma augStep_rot_ref (σ : Store) (ref : Nat) (ang amt : ℝ) (nu : Mat3) :
    (augStep σ ref ang amt nu).2.1 = σ.next := rfl

lemma augStep_noise_ref (σ : Store) (ref : Nat) (ang amt : ℝ) (nu : Mat3) :
    (augStep σ ref ang amt nu).2.2 = σ.next + 1 := by
  simp only [augStep, alloc_snd, rotate_skel_next]

lemma augStep_mem_other (σ : Store) (ref : Nat) (ang amt : ℝ) (nu : Mat3) (q : Nat)
    (h1 : q ≠ σ.next) (h2 : q ≠ σ.next + 1) :
    (augStep σ ref ang amt nu).1.mem q = σ.mem q := by
  simp only [augStep]
  rw [writeCol_mem_ne _ _ _ _ _ (by rw [alloc_snd, rotate_skel_next]; exact h2),
    alloc_fst_mem_ne _ _ _ (by rw [rotate_skel_next]; exact h2)]
  exact rotate_skel_mem_ne σ ref ang q h1

lemma augStep_mem_rot (σ : Store) (ref : Nat) (ang amt : ℝ) (nu : Mat3)
    (href : ref < σ.next) (r : Fin 3) (i : Fin 19) :
    (augStep σ ref ang amt nu).1.mem σ.next r i = rotY (radians ang) (col (σ.mem ref) i) r := by
  simp only [augStep]
  rw [writeCol_mem_ne _ _ _ _ _ (by rw [alloc_snd, rotate_skel_next]; omega),
    alloc_fst_mem_ne _ _ _ (by rw [rotate_skel_next]; omega)]
  exact rotate_skel_mem_out σ ref ang href r i

lemma augStep_mem_noise (σ : Store) (ref : Nat) (ang amt : ℝ) (nu : Mat3)
    (href : ref < σ.next) (r : Fin 3) (c : Fin 19) :
    (augStep σ ref ang amt nu).1.mem (σ.next + 1) r c
      = if c = 0 then 0 else σ.mem ref r c + amt * nu r c := by
  simp only [augStep]
  rw [show σ.next + 1
      = (alloc (rotate_skel σ ref ang).1 (noised (rotate_skel σ ref ang).1 ref amt nu)).2 by
    rw [alloc_snd, rotate_skel_next]]
  rw [writeCol_mem_self, alloc_snd, alloc_fst_mem_self]
  show updateCol (noised (rotate_skel σ ref ang).1 ref amt nu) 0 (fun _ => 0) r c = _
  rw [updateCol, noised, rotate_skel_mem_ne σ ref ang ref href.ne]

lemma buildRefs_length (n N : Nat) : (buildRefs n N).length = 2 * N := by
  induction N generalizing n with
  | zero => rfl
  | succ N ih =>
    rw [buildRefs, List.length_cons, List.length_cons, ih (n + 2)]
    omega

lemma buildRefs_ge (n N o : Nat) (ho : o ∈ buildRefs n N) : n ≤ o := by
  induction N generalizing n with
  | zero => simp [buildRefs] at ho
  | succ N ih =>
    simp only [buildRefs, List.mem_cons] at ho
    rcases ho with h | h | h
    · omega
    · omega
    · have := ih (n + 2) h
      omega

lemma buildRefs_getD_even (N n j : Nat) (hj : j < N) :
    (buildRefs n N).getD (2 * j) 0 = n + 2 * j := by
  induction N generalizing n j with
  | zero => omega
  | succ N ih =>
    cases j with
    | zero => simp [buildRefs]
    | succ j =>
      have h2 : 2 * (j + 1) = 2 * j + 1 + 1 := by omega
      rw [h2, buildRefs, List.getD_cons_succ, List.getD_cons_succ, ih (n + 2) j (by omega)]
      omega

lemma buildRefs_getD_odd (N n j : Nat) (hj : j < N) :
    (buildRefs n N).getD (2 * j + 1) 0 = n + 2 * j + 1 := by
  induction N generalizing n j with
  | zero => omega
  | succ N ih =>
    cases j with
    | zero => simp [buildRefs]
    | succ j =>
      have h2 : 2 * (j + 1) + 1 = 2 * j + 1 + 1 + 1 := by omega
      rw [h2, buildRefs, List.getD_cons_succ, List.getD_cons_succ, ih (n + 2) j (by omega)]
      omega

/-- Master description of the `augmented_data` loop: the final allocation
counter, the frame condition (no previously allocated array is written),
the exact list of returned references, and the contents of each appended
variant — the rotated variant of source `j` at even position, the noised
variant with zeroed neck column at odd position. -/
lemma augLoop_spec (a : Nat → ℝ) (u : Nat → Mat3) (amt : ℝ) :
    ∀ (refs : List Nat) (σ : Store) (k : Nat), (∀ r ∈ refs, r < σ.next) →
      (augLoop σ refs k a u amt).1.next = σ.next + 2 * refs.length ∧
      (∀ p, p < σ.next → (augLoop σ refs k a u amt).1.mem p = σ.mem p) ∧
      (augLoop σ refs k a u amt).2 = buildRefs σ.next refs.length ∧
      ∀ (j : Nat) (hj : j < refs.length),
        (∀ (r : Fin 3) (c : Fin 19),
          (augLoop σ refs k a u amt).1.mem (σ.next + 2 * j) r c
            = rotY (radians (a (k + j))) (col (σ.mem (refs.get ⟨j, hj⟩)) c) r) ∧
        (∀ (r : Fin 3) (c : Fin 19),
          (augLoop σ refs k a u amt).1.mem (σ.next + 2 * j + 1) r c
            = if c = 0 then 0 else σ.mem (refs.get ⟨j, hj⟩) r c + amt * u (k + j) r c) := by
  intro refs
  induction refs with
  | nil =>
    intro σ k _
    refine ⟨by simp [augLoop], fun p _ => rfl, by simp [augLoop, buildRefs], ?_⟩
    intro j hj
    simp at hj
  | cons ref rest ih =>
    intro σ k hv
    have href : ref < σ.next := hv ref (List.mem_cons_self _ _)
    have hrest : ∀ r ∈ rest, r < σ.next := fun r hr => hv r (List.mem_cons_of_mem _ hr)
    have h3next : (augStep σ ref (a k) amt (u k)).1.next = σ.next + 2 :=
      augStep_next σ ref (a k) amt (u k)
    have hvrest : ∀ r ∈ rest, r < (augStep σ ref (a k) amt (u k)).1.next := by
      intro r hr
      rw [h3next]
      have := hrest r hr
      omega
    obtain ⟨ihnext, ihmem, ihrefs, ihcontent⟩ :=
      ih (augStep σ ref (a k) amt (u k)).1 (k + 1) hvrest
    have hloop : augLoop σ (ref :: rest) k a u amt
        = ((augLoop (augStep σ ref (a k) amt (u k)).1 rest (k + 1) a u amt).1,
           (augStep σ ref (a k) amt (u k)).2.1 :: (augStep σ ref (a k) amt (u k)).2.2 ::
             (augLoop (augStep σ ref (a k) amt (u k)).1 rest (k + 1) a u amt).2) := rfl
    rw [hloop]
    have hmem3 : ∀ p, p < σ.next →
        (augLoop (augStep σ ref (a k) amt (u k)).1 rest (k + 1) a u amt).1.mem p = σ.mem p := by
      intro p hp
      rw [ihmem p (by rw [h3next]; omega)]
      exact augStep_mem_other σ ref (a k) amt (u k) p (by omega) (by omega)
    refine ⟨?_, ?_, ?_, ?_⟩
    · rw [ihnext, h3next, List.length_cons]
      omega
    · exact fun p hp => hmem3 p hp
    · rw [ihrefs, h3next, augStep_rot_ref, augStep_noise_ref, List.length_cons, buildRefs]
    · intro j hj
      cases j with
      | zero =>
        constructor
        · intro r c
          have haddr : σ.next + 2 * 0 = σ.next := by omega
          rw [haddr]
          rw [ihmem σ.next (by rw [h3next]; omega)]
          rw [show k + 0 = k by omega]
          exact augStep_mem_rot σ ref (a k) amt (u k) href r c
        · intro r c
          have haddr : σ.next + 2 * 0 + 1 = σ.next + 1 := by omega
          rw [haddr]
          rw [ihmem (σ.next + 1) (by rw [h3next]; omega)]
          rw [show k + 0 = k by omega]
          exact augStep_mem_noise σ ref (a k) amt (u k) href r c
      | succ j =>
        have hj' : j < rest.length := by
          rw [List.length_cons] at hj
          omega
        obtain ⟨ihrot, ihnoise⟩ := ihcontent j hj'
        have hget : (ref :: rest).get ⟨j + 1, hj⟩ = rest.get ⟨j, hj'⟩ := rfl
        have hsrc : (augStep σ ref (a k) amt (u k)).1.mem (rest.get ⟨j, hj'⟩)
            = σ.mem (rest.get ⟨j, hj'⟩) := by
          have := hrest (rest.get ⟨j, hj'⟩) (rest.get_mem _ _)
          exact augStep_mem_other σ ref (a k) amt (u k) _ (by omega) (by omega)
        constructor
        · intro r c
          have haddr : σ.next + 2 * (j + 1)
              = (augStep σ ref (a k) amt (u k)).1.next + 2 * j := by
            rw [h3next]
            omega
          rw [haddr, ihrot r c, hsrc, hget, show k + 1 + j = k + (j + 1) by omega]
        · intro r c
          have haddr : σ.next + 2 * (j + 1) + 1
              = (augStep σ ref (a k) amt (u k)).1.next + 2 * j + 1 := by
            rw [h3next]
            omega
          rw [haddr, ihnoise r c, hsrc, hget, show k + 1 + j = k + (j + 1) by omega]

/-- C6: on a non-empty collection of N skeletons, `augmented_data`
succeeds and returns exactly 2N new skeletons, interleaved per source (not
batched): position 2j holds the rotated variant of source j and position
2j+1 its noised variant, so the concatenated dataset has 3N skeletons. -/
theorem c6_augmented_data_size_and_order (σ : Store) (refs : List Nat)
    (a : Nat → ℝ) (u : Nat → Mat3) (hne : refs ≠ [])
    (hv : ∀ r ∈ refs, r < σ.next) :
    ∃ σ' out, augmented_data σ refs a u = some (σ', out) ∧
      out.length = 2 * refs.length ∧
      refs.length + out.length = 3 * refs.length ∧
      ∀ (j : Nat) (hj : j < refs.length),
        (∀ (r : Fin 3) (c : Fin 19),
          σ'.mem (out.getD (2 * j) 0) r c
            = rotY (radians (a j)) (col (σ.mem (refs.get ⟨j, hj⟩)) c) r) ∧
        (∀ (r : Fin 3) (c : Fin 19),
          σ'.mem (out.getD (2 * j + 1) 0) r c
            = if c = 0 then 0
              else σ.mem (refs.get ⟨j, hj⟩) r c
                + matStd (σ.mem (refs.getD 0 0)) / 10 * u j r c) := by
  cases refs with
  | nil => exact absurd rfl hne
  | cons ref rest =>
    obtain ⟨hn, hm, hr, hc⟩ :=
      augLoop_spec a u (matStd (σ.mem ref) / 10) (ref :: rest) σ 0 hv
    have hlen : (augLoop σ (ref :: rest) 0 a u (matStd (σ.mem ref) / 10)).2.length
        = 2 * (ref :: rest).length := by
      rw [hr, buildRefs_length]
    refine ⟨(augLoop σ (ref :: rest) 0 a u (matStd (σ.mem ref) / 10)).1,
      (augLoop σ (ref :: rest) 0 a u (matStd (σ.mem ref) / 10)).2, rfl, hlen, by omega, ?_⟩
    intro j hj
    obtain ⟨crot, cnoise⟩ := hc j hj
    constructor
    · intro r c
      rw [hr, buildRefs_getD_even _ _ j hj]
      have := crot r c
      rw [Nat.zero_add] at this
      exact this
    · intro r c
      rw [hr, buildRefs_getD_odd _ _ j hj]
      have := cnoise r c
      rw [Nat.zero_add] at this
      exact this

theorem c6_witness :
    (([0] : List Nat) ≠ [] ∧ ∀ r ∈ ([0] : List Nat), r < storeW.next) ∧
      ∃ σ' out,
        augmented_data storeW [0] (fun _ => 0) (fun _ => fun _ _ => 0) = some (σ', out) ∧
        out.length = 2 * ([0] : List Nat).length ∧
        ([0] : List Nat).length + out.length = 3 * ([0] : List Nat).length ∧
        ∀ (j : Nat) (hj : j < ([0] : List Nat).length),
          (∀ (r : Fin 3) (c : Fin 19),
            σ'.mem (out.getD (2 * j) 0) r c
              = rotY (radians ((fun _ => (0 : ℝ)) j))
                  (col (storeW.mem (([0] : List Nat).get ⟨j, hj⟩)) c) r) ∧
          (∀ (r : Fin 3) (c : Fin 19),
            σ'.mem (out.getD (2 * j + 1) 0) r c
              = if c = 0 then 0
                else storeW.mem (([0] : List Nat).get ⟨j, hj⟩) r c
                  + matStd (storeW.mem (([0] : List Nat).getD 0 0)) / 10
                    * (fun _ => fun _ _ => (0 : ℝ)) j r c) := by
  have h1 : ([0] : List Nat) ≠ [] := by decide
  have h2 : ∀ r ∈ ([0] : List Nat), r < storeW.next := by decide
  exact ⟨⟨h1, h2⟩,
    c6_augmented_data_size_and_order storeW [0] (fun _ => 0) (fun _ => fun _ _ => 0) h1 h2⟩

/-- C7: `augmented_data` does not mutate its input: every input array has
the same contents after the call as before, and every returned reference
is a newly allocated one (allocated at or after the pre-call allocation
counter). -/
theorem c7_augmented_data_no_mutation (σ : Store) (refs : List Nat)
    (a : Nat → ℝ) (u : Nat → Mat3) (hne : refs ≠ [])
    (hv : ∀ r ∈ refs, r < σ.next) :
    ∃ σ' out, augmented_data σ refs a u = some (σ', out) ∧
      (∀ r ∈ refs, σ'.mem r = σ.mem r) ∧
      (∀ o ∈ out, σ.next ≤ o) := by
  cases refs with
  | nil => exact absurd rfl hne
  | cons ref rest =>
    obtain ⟨hn, hm, hr, hc⟩ :=
      augLoop_spec a u (matStd (σ.mem ref) / 10) (ref :: rest) σ 0 hv
    refine ⟨(augLoop σ (ref :: rest) 0 a u (matStd (σ.mem ref) / 10)).1,
      (augLoop σ (ref :: rest) 0 a u (matStd (σ.mem ref) / 10)).2, rfl, ?_, ?_⟩
    · intro r hrm
      exact hm r (hv r hrm)
    · intro o ho
      rw [hr] at ho
      exact buildRefs_ge _ _ _ ho

theorem c7_witness :
    (([0] : List Nat) ≠ [] ∧ ∀ r ∈ ([0] : List Nat), r < storeW.next) ∧
      ∃ σ' out,
        augmented_data storeW [0] (fun _ => 0) (fun _ => fun _ _ => 0) = some (σ', out) ∧
        (∀ r ∈ ([0] : List Nat), σ'.mem r = storeW.mem r) ∧
        (∀ o ∈ out, storeW.next ≤ o) := by
  have h1 : ([0] : List Nat) ≠ [] := by decide
  have h2 : ∀ r ∈ ([0] : List Nat), r < storeW.next := by decide
  exact ⟨⟨h1, h2⟩,
    c7_augmented_data_no_mutation storeW [0] (fun _ => 0) (fun _ => fun _ _ => 0) h1 h2⟩

/-- C8: every noise variant produced by `augmented_data` has joint 0 equal
to exactly (0, 0, 0): line 79 (`new_sample[:, 0] = 0`) zeroes the neck
column after the noise has been added, whatever the noise values are. -/
theorem c8_noise_variant_neck_zero (σ : Store) (refs : List Nat)
    (a : Nat → ℝ) (u : Nat → Mat3) (hne : refs ≠ [])
    (hv : ∀ r ∈ refs, r < σ.next) (j : Nat) (hj : j < refs.length) :
    ∃ σ' out, augmented_data σ refs a u = some (σ', out) ∧
      ∀ r : Fin 3, σ'.mem (out.getD (2 * j + 1) 0) r 0 = 0 := by
  cases refs with
  | nil => exact absurd rfl hne
  | cons ref rest =>
    obtain ⟨hn, hm, hr, hc⟩ :=
      augLoop_spec a u (matStd (σ.mem ref) / 10) (ref :: rest) σ 0 hv
    refine ⟨(augLoop σ (ref :: rest) 0 a u (matStd (σ.mem ref) / 10)).1,
      (augLoop σ (ref :: rest) 0 a u (matStd (σ.mem ref) / 10)).2, rfl, ?_⟩
    intro r
    obtain ⟨_, cnoise⟩ := hc j hj
    rw [hr, buildRefs_getD_odd _ _ j hj, cnoise r 0]
    simp

theorem c8_witness :
    (([0] : List Nat) ≠ [] ∧ (∀ r ∈ ([0] : List Nat), r < storeW.next) ∧
        0 < ([0] : List Nat).length) ∧
      ∃ σ' out,
        augmented_data storeW [0] (fun _ => 0) (fun _ => fun _ _ => 0) = some (σ', out) ∧
        ∀ r : Fin 3, σ'.mem (out.getD (2 * 0 + 1) 0) r 0 = 0 := by
  have h1 : ([0] : List Nat) ≠ [] := by decide
  have h2 : ∀ r ∈ ([0] : List Nat), r < storeW.next := by decide
  have h3 : 0 < ([0] : List Nat).length := by decide
  exact ⟨⟨h1, h2, h3⟩,
    c8_noise_variant_neck_zero storeW [0] (fun _ => 0) (fun _ => fun _ _ => 0) h1 h2 0 h3⟩

/-- C10: `augmented_data` applied to an empty collection fails — line 71
indexes the first skeleton (`skeletons_3d[0]`) to compute the dataset-wide
noise scale, an out-of-bounds access on an empty input — rather than
returning an empty list; the 2N size property of C6 is conditional on a
non-empty input. -/
theorem c10_augmented_data_empty_fails (σ : Store) (a : Nat → ℝ) (u : Nat → Mat3) :
    augmented_data σ [] a u = none := rfl

/-! ## The dataset builder (C9) -/

lemma allocList_length (σ : Store) (ms : List Mat3) : (allocList σ ms).2.length = ms.length := by
  induction ms generalizing σ with
  | nil => rfl
  | cons m rest ih =>
    simp only [allocList, List.length_cons, ih]

lemma getD_map_of_lt (l : List Mat3) (i : Nat) (hi : i < l.length) :
    (l.map project_skel).getD i (fun _ _ => 0) = project_skel (l.getD i (fun _ _ => 0)) := by
  rw [List.getD_eq_getElem _ _ (by simpa using hi), List.getD_eq_getElem _ _ hi,
    List.getElem_map]

/-- Whatever dataset `generate_dataset` returns, its 2d list is the
projector mapped over its 3d list — that is how lines 106–111 build it. -/
lemma generate_dataset_d2_eq (frames : List (List Mat4)) (a : Nat → ℝ) (u : Nat → Mat3)
    (ds : Dataset) (hds : generate_dataset frames a u = some ds) :
    ds.d2 = ds.d3.map project_skel := by
  simp only [generate_dataset] at hds
  rcases Option.map_eq_some'.mp hds with ⟨q, _, hq2⟩
  rw [← hq2]

/-- On an input with at least one body, `generate_dataset` succeeds. -/
lemma generate_dataset_isSome (frames : List (List Mat4)) (a : Nat → ℝ) (u : Nat → Mat3)
    (h : (halve frames).flatten ≠ []) :
    ∃ ds, generate_dataset frames a u = some ds := by
  have hne : ((halve frames).flatten).map normalize_skeleton ≠ [] := by
    intro h0
    exact h (by simpa using h0)
  have hlen1 : (allocList emptyStore (((halve frames).flatten).map normalize_skeleton)).2.length
      = (((halve frames).flatten).map normalize_skeleton).length := allocList_length _ _
  have hne2 : (allocList emptyStore (((halve frames).flatten).map normalize_skeleton)).2 ≠ [] := by
    intro h0
    rw [h0] at hlen1
    exact hne (List.length_eq_zero.mp hlen1.symm)
  cases hq : (allocList emptyStore (((halve frames).flatten).map normalize_skeleton)).2 with
  | nil => exact absurd hq hne2
  | cons f r =>
    have haug : augmented_data
          (allocList emptyStore (((halve frames).flatten).map normalize_skeleton)).1
          (allocList emptyStore (((halve frames).flatten).map normalize_skeleton)).2 a u
        = some (augLoop
            (allocList emptyStore (((halve frames).flatten).map normalize_skeleton)).1
            (allocList emptyStore (((halve frames).flatten).map normalize_skeleton)).2
            0 a u
            (matStd ((allocList emptyStore
              (((halve frames).flatten).map normalize_skeleton)).1.mem f) / 10)) := by
      rw [hq]
      rfl
    exact ⟨_, by
      simp only [generate_dataset]
      rw [haug]
      rfl⟩

/-- C9: the dataset built by `generate_dataset` consists of two parallel
sequences of equal length under the keys 3d (`d3`) and 2d (`d2`), where
element i of the 2d sequence is exactly `project_skel` of element i of the
3d sequence (lines 106–111 map the projector over the full, already
augmented 3d list). -/
theorem c9_parallel_projection (frames : List (List Mat4)) (a : Nat → ℝ) (u : Nat → Mat3)
    (h : (halve frames).flatten ≠ []) :
    ∃ ds, generate_dataset frames a u = some ds ∧
      ds.d2.length = ds.d3.length ∧
      ∀ i : Nat, i < ds.d3.length →
        ds.d2.getD i (fun _ _ => 0) = project_skel (ds.d3.getD i (fun _ _ => 0)) := by
  obtain ⟨ds, hds⟩ := generate_dataset_isSome frames a u h
  have hmap := generate_dataset_d2_eq frames a u ds hds
  refine ⟨ds, hds, ?_, ?_⟩
  · rw [hmap, List.length_map]
  · intro i hi
    rw [hmap]
    exact getD_map_of_lt _ i hi

/-- A single-frame, single-body input for the C9 witness. -/
def wFrames : List (List Mat4) := [[degSkel]]

theorem c9_witness :
    ((halve wFrames).flatten ≠ []) ∧
      ∃ ds, generate_dataset wFrames (fun _ => 0) (fun _ => fun _ _ => 0) = some ds ∧
        ds.d2.length = ds.d3.length ∧
        ∀ i : Nat, i < ds.d3.length →
          ds.d2.getD i (fun _ _ => 0) = project_skel (ds.d3.getD i (fun _ _ => 0)) := by
  have h : (halve wFrames).flatten ≠ [] := by
    simp [halve, wFrames]
  exact ⟨h, c9_parallel_projection wFrames (fun _ => 0) (fun _ => fun _ _ => 0) h⟩

end GenDataset
